import Mathlib

/-!
Car dolly zoom: curve evaluator, scene builder and animation clock.

A shallow embedding of `Car dolly zoom/Animation/main.cpp`.

In the curve evaluator and the scene builder `float` values are read as
elements of an arbitrary field `α` (exact arithmetic, no rounding).  The
functions the program takes from the C maths library and from GLM
(`inversesqrt`, `atan2`, `cos`, `sin`) are parameters of the embedding, so
these definitions are executable over `ℚ` and can be instantiated at `ℝ`.

The animation clock and the dolly ramps are modelled with their rounding:
`double` and `float` values are the rationals of IEEE 754 binary64 and
binary32, and every operation rounds to nearest, ties to even (`roundDouble`,
`roundFloat`).
-/

namespace CarDollyZoom

/-! ## `glm::vec3` -/

/-- A `glm::vec3`: three scalar components. -/
@[ext]
structure Vec3 (α : Type) where
  x : α
  y : α
  z : α
deriving DecidableEq, Repr

namespace Vec3

variable {α : Type}

/-- Component-wise sum, `a + b` on `glm::vec3`. -/
def add [Add α] (a b : Vec3 α) : Vec3 α := ⟨a.x + b.x, a.y + b.y, a.z + b.z⟩

/-- Component-wise difference, `a - b` on `glm::vec3`. -/
def sub [Sub α] (a b : Vec3 α) : Vec3 α := ⟨a.x - b.x, a.y - b.y, a.z - b.z⟩

/-- Scalar times vector, `s * v` on `glm::vec3`. -/
def smul [Mul α] (s : α) (v : Vec3 α) : Vec3 α := ⟨s * v.x, s * v.y, s * v.z⟩

/-- Vector times scalar, `v * s` on `glm::vec3`. -/
def muls [Mul α] (v : Vec3 α) (s : α) : Vec3 α := ⟨v.x * s, v.y * s, v.z * s⟩

/-- The dot product `glm::dot`. -/
def dot [Add α] [Mul α] (a b : Vec3 α) : α := a.x * b.x + a.y * b.y + a.z * b.z

/-- The cross product `glm::cross`. -/
def cross [Sub α] [Mul α] (a b : Vec3 α) : Vec3 α :=
  ⟨a.y * b.z - b.y * a.z, a.z * b.x - b.z * a.x, a.x * b.y - b.x * a.y⟩

/-- The normalisation `glm::normalize`: `v * inversesqrt(dot(v, v))`. -/
def normalize [Add α] [Mul α] (inversesqrt : α → α) (v : Vec3 α) : Vec3 α :=
  muls v (inversesqrt (dot v v))

/-- The Euclidean length `glm::length`: `sqrt(dot(v, v))`. -/
def length [Add α] [Mul α] (sqrt : α → α) (v : Vec3 α) : α := sqrt (dot v v)

end Vec3

instance {α : Type} [Add α] : Add (Vec3 α) := ⟨Vec3.add⟩

instance {α : Type} [Sub α] : Sub (Vec3 α) := ⟨Vec3.sub⟩

instance {α : Type} [Mul α] : HMul α (Vec3 α) (Vec3 α) := ⟨Vec3.smul⟩

instance {α : Type} [Mul α] : HMul (Vec3 α) α (Vec3 α) := ⟨Vec3.muls⟩

instance {α : Type} [Zero α] : Zero (Vec3 α) := ⟨⟨0, 0, 0⟩⟩

/-! ## Curve evaluator -/

section Curve

variable {α : Type} [Field α]

/-- The element `controlPoints[i]` of the `std::vector<glm::vec3>`.  The
program only ever indexes a four-element vector with `0..3`; reading past the
end (undefined in C++) gives the zero vector here. -/
def at_ (controlPoints : List (Vec3 α)) (i : Nat) : Vec3 α := controlPoints.getD i 0

/-- The function `getBezierPoint` (main.cpp:352-356). -/
def getBezierPoint (t : α) (controlPoints : List (Vec3 α)) : Vec3 α :=
  let u := 1 - t
  let tt := t * t
  let uu := u * u
  let uuu := uu * u
  let ttt := tt * t
  let p := uuu * at_ controlPoints 0
  let p := p + (3 * uu * t) * at_ controlPoints 1
  let p := p + (3 * u * tt) * at_ controlPoints 2
  let p := p + ttt * at_ controlPoints 3
  p

/-- The local `p` of `getBezierTangent` just before `glm::normalize(p)`
(main.cpp:358-359): the vector that is normalised. -/
def bezierTangentVector (t : α) (controlPoints : List (Vec3 α)) : Vec3 α :=
  let u := 1 - t
  let tt := t * t
  let uu := u * u
  let p := (-3 * uu) * at_ controlPoints 0
  let p := p + (3 * (uu - 2 * u * t)) * at_ controlPoints 1
  let p := p + (3 * (2 * u * t - tt)) * at_ controlPoints 2
  let p := p + (3 * tt) * at_ controlPoints 3
  p

/-- The function `getBezierTangent` (main.cpp:357-361). -/
def getBezierTangent (inversesqrt : α → α) (t : α) (controlPoints : List (Vec3 α)) : Vec3 α :=
  Vec3.normalize inversesqrt (bezierTangentVector t controlPoints)

/-- The road's control points `roadControlPoints` (main.cpp:147-150). -/
def roadControlPoints : List (Vec3 α) :=
  [⟨-50, 0, 0⟩, ⟨-25, 0, 0⟩, ⟨25, 0, 50⟩, ⟨50, 0, 50⟩]

end Curve

/-! ## `glm::mat4` and the transforms of `glm/gtc/matrix_transform.hpp` -/

/-- A `glm::vec4`, one column of a matrix. -/
@[ext]
structure Vec4 (α : Type) where
  x : α
  y : α
  z : α
  w : α
deriving DecidableEq, Repr

/-- Vector times scalar on `glm::vec4`. -/
def Vec4.muls {α : Type} [Mul α] (v : Vec4 α) (s : α) : Vec4 α :=
  ⟨v.x * s, v.y * s, v.z * s, v.w * s⟩

/-- Component-wise sum on `glm::vec4`. -/
def Vec4.add {α : Type} [Add α] (a b : Vec4 α) : Vec4 α :=
  ⟨a.x + b.x, a.y + b.y, a.z + b.z, a.w + b.w⟩

instance {α : Type} [Add α] : Add (Vec4 α) := ⟨Vec4.add⟩

instance {α : Type} [Mul α] : HMul (Vec4 α) α (Vec4 α) := ⟨Vec4.muls⟩

/-- A `glm::mat4`, stored by columns: `c0 = m[0]`, ..., `c3 = m[3]`. -/
@[ext]
structure Mat4 (α : Type) where
  c0 : Vec4 α
  c1 : Vec4 α
  c2 : Vec4 α
  c3 : Vec4 α
deriving DecidableEq, Repr

/-- The functions of the C maths library and of GLM's scalar layer that the
program calls; they are inputs of the embedding. -/
structure Libm (α : Type) where
  inversesqrt : α → α
  atan2 : α → α → α
  cos : α → α
  sin : α → α

section Transforms

variable {α : Type} [Field α]

/-- The identity matrix `glm::mat4(1.0f)`. -/
def Mat4.identity : Mat4 α := ⟨⟨1, 0, 0, 0⟩, ⟨0, 1, 0, 0⟩, ⟨0, 0, 1, 0⟩, ⟨0, 0, 0, 1⟩⟩

/-- The transform `glm::translate(m, v)`: the last column becomes
`m[0]*v[0] + m[1]*v[1] + m[2]*v[2] + m[3]`. -/
def translate (m : Mat4 α) (v : Vec3 α) : Mat4 α :=
  { m with c3 := m.c0 * v.x + m.c1 * v.y + m.c2 * v.z + m.c3 }

/-- The transform `glm::scale(m, v)`: the first three columns are scaled. -/
def scale (m : Mat4 α) (v : Vec3 α) : Mat4 α :=
  ⟨m.c0 * v.x, m.c1 * v.y, m.c2 * v.z, m.c3⟩

/-- The transform `glm::rotate(m, angle, v)`. -/
def rotate (lm : Libm α) (m : Mat4 α) (angle : α) (v : Vec3 α) : Mat4 α :=
  let c := lm.cos angle
  let s := lm.sin angle
  let axis := Vec3.normalize lm.inversesqrt v
  let temp := (1 - c) * axis
  let r00 := c + temp.x * axis.x
  let r01 := temp.x * axis.y + s * axis.z
  let r02 := temp.x * axis.z - s * axis.y
  let r10 := temp.y * axis.x - s * axis.z
  let r11 := c + temp.y * axis.y
  let r12 := temp.y * axis.z + s * axis.x
  let r20 := temp.z * axis.x + s * axis.y
  let r21 := temp.z * axis.y - s * axis.x
  let r22 := c + temp.z * axis.z
  ⟨m.c0 * r00 + m.c1 * r01 + m.c2 * r02,
   m.c0 * r10 + m.c1 * r11 + m.c2 * r12,
   m.c0 * r20 + m.c1 * r21 + m.c2 * r22,
   m.c3⟩

end Transforms

/-! ## Road ribbon (main.cpp:151-160) -/

section Road

variable {α : Type} [Field α]

/-- The four corner vertices `v1, v2, v3, v4` of one road segment. -/
structure RoadSegment (α : Type) where
  v1 : Vec3 α
  v2 : Vec3 α
  v3 : Vec3 α
  v4 : Vec3 α

/-- The horizontal normal of the road at parameter `t`:
`normalize(cross(normalize(getBezierTangent(t, roadControlPoints)), vec3(0,1,0)))`
(main.cpp:155-156). -/
def roadNormal (inversesqrt : α → α) (t : α) : Vec3 α :=
  Vec3.normalize inversesqrt
    (Vec3.cross (Vec3.normalize inversesqrt (getBezierTangent inversesqrt t roadControlPoints))
      ⟨0, 1, 0⟩)

/-- The corners computed by iteration `i` of the road loop (main.cpp:153-157). -/
def roadSegment (inversesqrt : α → α) (i : Nat) : RoadSegment α :=
  let t1 : α := (i : α) / 100
  let t2 : α := ((i + 1 : Nat) : α) / 100
  let p1 := getBezierPoint t1 roadControlPoints
  let p2 := getBezierPoint t2 roadControlPoints
  let n1 := roadNormal inversesqrt t1
  let n2 := roadNormal inversesqrt t2
  ⟨p1 - n1 * (5 : α), p1 + n1 * (5 : α), p2 - n2 * (5 : α), p2 + n2 * (5 : α)⟩

/-- One vertex of the road buffer: position followed by the normal `0,1,0`. -/
def roadVertex (v : Vec3 α) : List α := [v.x, v.y, v.z, 0, 1, 0]

/-- The floats appended to `roadVertices` by iteration `i`: the triangles
`v1 v2 v3` and `v2 v4 v3` (main.cpp:158-159). -/
def roadSegmentVertices (inversesqrt : α → α) (i : Nat) : List α :=
  let s := roadSegment inversesqrt i
  (roadVertex s.v1 ++ roadVertex s.v2 ++ roadVertex s.v3) ++
    (roadVertex s.v2 ++ roadVertex s.v4 ++ roadVertex s.v3)

/-- The buffer `roadVertices` after the first `n` iterations of the road loop. -/
def roadVerticesAfter (inversesqrt : α → α) : Nat → List α
  | 0 => []
  | n + 1 => roadVerticesAfter inversesqrt n ++ roadSegmentVertices inversesqrt n

/-- The buffer `roadVertices` once the loop `for (i = 0; i < 100; ++i)` is over. -/
def roadVertices (inversesqrt : α → α) : List α := roadVerticesAfter inversesqrt 100

/-- The position attribute of vertex `k` of a buffer laid out as by
`glVertexAttribPointer(0, 3, GL_FLOAT, GL_FALSE, 6*sizeof(float), 0)`
(main.cpp:165): three floats at offset `6 * k`. -/
def vertexPosition (buffer : List α) (k : Nat) : Option (Vec3 α) :=
  match buffer.drop (6 * k) with
  | x :: y :: z :: _ => some ⟨x, y, z⟩
  | _ => none

end Road

/-! ## Buildings, windows and streetlights (main.cpp:178-212) -/

/-- The constant `MAX_POINT_LIGHTS` (main.cpp:25). -/
def MAX_POINT_LIGHTS : Nat := 10

/-- The vectors filled by the placement loop, with the number of calls made to
`std::rand()` so far. -/
structure Scene (α : Type) where
  buildingModels : List (Mat4 α)
  darkWindowModels : List (Mat4 α)
  litWindowModels : List (Mat4 α)
  streetlightPostModels : List (Mat4 α)
  streetlightLampModels : List (Mat4 α)
  streetlightHoodModels : List (Mat4 α)
  pointLightPositions : List (Vec3 α)
  randCalls : Nat

/-- The state before the placement loop: every vector empty. -/
def Scene.empty {α : Type} : Scene α := ⟨[], [], [], [], [], [], [], 0⟩

section Placement

variable {α : Type}

/-- A loop `for (float x = start; x < limit; x += 3.0f) body`, started at `x`. -/
def forStep3 [LinearOrderedField α] [FloorRing α] {σ : Type} (x limit : α)
    (body : α → σ → σ) (s : σ) : σ :=
  if x < limit then forStep3 (x + 3) limit body (body x s) else s
termination_by Int.toNat ⌈(limit - x) / 3⌉
decreasing_by
  have hstep : (limit - (x + 3)) / 3 = (limit - x) / 3 - 1 := by ring
  have hpos : 0 < (limit - x) / 3 := div_pos (by linarith) (by norm_num)
  have hceil : 0 < ⌈(limit - x) / 3⌉ := Int.ceil_pos.mpr hpos
  rw [hstep, Int.ceil_sub_one]
  omega

variable [LinearOrderedField α]

/-- The side of the road of building `i`: `(i%2==0) ? 1.0f : -1.0f`
(main.cpp:185). -/
def side (i : Nat) : α := if i % 2 = 0 then 1 else -1

/-- The height `10.0f + (std::rand()%10)*4.0f` drawn from the value `r` of
`std::rand()` (main.cpp:186). -/
def buildingHeight (r : Nat) : α := 10 + ((r % 10 : Nat) : α) * 4

/-- The width `4.0f + (std::rand()%5)` drawn from the value `r` of
`std::rand()` (main.cpp:186). -/
def buildingWidth (r : Nat) : α := 4 + ((r % 5 : Nat) : α)

/-- The parameter `t = (float)i / 20` of building `i`; the constant `20` of the
program is the argument `spacing`. -/
def buildingT (spacing i : Nat) : α := (i : α) / (spacing : α)

/-- The point `pos` of building `i` on the curve (main.cpp:182). -/
def buildingPos (spacing i : Nat) : Vec3 α :=
  getBezierPoint (buildingT spacing i) roadControlPoints

/-- The vector `tangent` of building `i` (main.cpp:183). -/
def buildingTangent (lm : Libm α) (spacing i : Nat) : Vec3 α :=
  Vec3.normalize lm.inversesqrt
    (getBezierTangent lm.inversesqrt (buildingT spacing i) roadControlPoints)

/-- The vector `n` of building `i` (main.cpp:184). -/
def buildingNormal (lm : Libm α) (spacing i : Nat) : Vec3 α :=
  Vec3.normalize lm.inversesqrt (Vec3.cross (buildingTangent lm spacing i) ⟨0, 1, 0⟩)

/-- The matrix `model` of building `i` with height `h` and width `w`
(main.cpp:186-189). -/
def buildingModel (lm : Libm α) (spacing i : Nat) (h w : α) : Mat4 α :=
  let pos := buildingPos spacing i
  let tangent := buildingTangent lm spacing i
  let n := buildingNormal lm spacing i
  let offset : α := 5 + w
  let model := translate Mat4.identity
    (pos + n * (side i : α) * offset + (⟨0, h / 2, 0⟩ : Vec3 α))
  let model := rotate lm model (lm.atan2 tangent.x tangent.z) ⟨0, 1, 0⟩
  scale model ⟨w, h, w⟩

/-- The matrix `winModel` of the window at local `(x, y)` (main.cpp:193-194). -/
def windowModel (model : Mat4 α) (h w y x : α) : Mat4 α :=
  let winModel := translate model ⟨x / w, (y - h / 2) / h, 0.51⟩
  scale winModel ⟨1.5 / w, 1.5 / h, 0.1⟩

/-- The body of the inner window loop (main.cpp:193-195): the window goes to
`litWindowModels` when `std::rand()%3==0`, to `darkWindowModels` otherwise. -/
def windowCell (rand : Nat → Nat) (model : Mat4 α) (h w y x : α) (s : Scene α) : Scene α :=
  let winModel := windowModel model h w y x
  if rand s.randCalls % 3 = 0 then
    { s with litWindowModels := s.litWindowModels ++ [winModel], randCalls := s.randCalls + 1 }
  else
    { s with darkWindowModels := s.darkWindowModels ++ [winModel], randCalls := s.randCalls + 1 }

/-- The inner loop `for (float x = -w/2.0f+1.5f; x < w/2.0f-1.5f; x += 3.0f)`
(main.cpp:192-196). -/
def windowRow [FloorRing α] (rand : Nat → Nat) (model : Mat4 α) (h w y : α)
    (s : Scene α) : Scene α :=
  forStep3 (-w / 2 + 1.5) (w / 2 - 1.5) (windowCell rand model h w y) s

/-- The outer loop `for (float y = 2.0f; y < h-2.0f; y += 3.0f)`
(main.cpp:191-197). -/
def windowGrid [FloorRing α] (rand : Nat → Nat) (model : Mat4 α) (h w : α)
    (s : Scene α) : Scene α :=
  forStep3 2 (h - 2) (windowRow rand model h w) s

/-- The values taken by the counter of a loop
`for (float v = x; v < limit; v += 3.0f)`, in the order of the iterations. -/
def loopValues [FloorRing α] (x limit : α) : List α :=
  forStep3 x limit (fun v acc => acc ++ [v]) []

/-- The cells `(y, x)` visited by the two window loops of a building of height
`h` and width `w` (main.cpp:191-192), in the order of the iterations. -/
def windowCells [FloorRing α] (h w : α) : List (α × α) :=
  forStep3 2 (h - 2)
    (fun y acc => forStep3 (-w / 2 + 1.5) (w / 2 - 1.5) (fun x acc => acc ++ [(y, x)]) acc) []

/-- The base `pPos` of the streetlight of building `i` (main.cpp:199). -/
def streetlightBase (lm : Libm α) (spacing i : Nat) : Vec3 α :=
  buildingPos spacing i + buildingNormal lm spacing i * (side i : α) * ((5 : α) + 1)

/-- The lamp position `lPos`, recorded as a point light (main.cpp:203). -/
def lampPos (lm : Libm α) (spacing i : Nat) : Vec3 α :=
  streetlightBase lm spacing i + (⟨0, 6.5, 0⟩ : Vec3 α)

/-- The matrix `pModel` of the post (main.cpp:200-201). -/
def postModel (lm : Libm α) (spacing i : Nat) : Mat4 α :=
  scale (translate Mat4.identity (streetlightBase lm spacing i + (⟨0, 3, 0⟩ : Vec3 α)))
    ⟨0.2, 6, 0.2⟩

/-- The matrix `lModel` of the lamp (main.cpp:205-206). -/
def lampModel (lm : Libm α) (spacing i : Nat) : Mat4 α :=
  scale (translate Mat4.identity (lampPos lm spacing i)) ⟨0.5, 0.5, 0.5⟩

/-- The matrix `hModel` of the hood (main.cpp:208-209). -/
def hoodModel (lm : Libm α) (spacing i : Nat) : Mat4 α :=
  scale (translate Mat4.identity (lampPos lm spacing i + (⟨0, 0.3, 0⟩ : Vec3 α)))
    ⟨0.8, 0.1, 0.8⟩

/-- The streetlight block (main.cpp:198-211): when `i%3==0` and fewer than
`MAX_POINT_LIGHTS` lights exist, one post, one point light, one lamp and one
hood are appended. -/
def streetlight (lm : Libm α) (spacing i : Nat) (s : Scene α) : Scene α :=
  if i % 3 = 0 ∧ s.pointLightPositions.length < MAX_POINT_LIGHTS then
    { s with
      streetlightPostModels := s.streetlightPostModels ++ [postModel lm spacing i]
      pointLightPositions := s.pointLightPositions ++ [lampPos lm spacing i]
      streetlightLampModels := s.streetlightLampModels ++ [lampModel lm spacing i]
      streetlightHoodModels := s.streetlightHoodModels ++ [hoodModel lm spacing i] }
  else s

/-- The body of the placement loop for building `i` (main.cpp:181-211): two
draws give the height and the width, the building is appended, its windows are
tiled, and its streetlight is placed. -/
def placeBuilding [FloorRing α] (lm : Libm α) (rand : Nat → Nat) (spacing i : Nat)
    (s : Scene α) : Scene α :=
  let h : α := buildingHeight (rand s.randCalls)
  let w : α := buildingWidth (rand (s.randCalls + 1))
  let model := buildingModel lm spacing i h w
  let s := { s with buildingModels := s.buildingModels ++ [model], randCalls := s.randCalls + 2 }
  let s := windowGrid rand model h w s
  streetlight lm spacing i s

/-- The state after the first `n` iterations of the placement loop. -/
def sceneAfter [FloorRing α] (lm : Libm α) (rand : Nat → Nat) (spacing : Nat) :
    Nat → Scene α
  | 0 => Scene.empty
  | n + 1 => placeBuilding lm rand spacing n (sceneAfter lm rand spacing n)

/-- The scene built by `main`: the loop `for (int i = 0; i < 20; ++i)` with
`t = (float)i / 20`. -/
def scene [FloorRing α] (lm : Libm α) (rand : Nat → Nat) : Scene α :=
  sceneAfter lm rand 20 20

end Placement

/-! ## Animation clock and dolly ramps (main.cpp:239-244) -/

section Animation

variable {α : Type} [LinearOrderedField α]

/-- The integer part of `q`, rounded towards zero. -/
def truncate [FloorRing α] (q : α) : ℤ := if 0 ≤ q then ⌊q⌋ else ⌈q⌉

/-- The C library function `fmod`: `x - n*y` where `n` is `x/y` with its
fractional part cut off. -/
def fmod [FloorRing α] (x y : α) : α := x - (truncate (x / y) : α) * y

/-- Rounding of a rational to the nearest integer, ties to the even integer
(IEEE 754 `roundTiesToEven`, the rounding mode of the program). -/
def roundNearestEven (r : ℚ) : ℤ :=
  if r - (⌊r⌋ : ℚ) < 1 / 2 then ⌊r⌋
  else if 1 / 2 < r - (⌊r⌋ : ℚ) then ⌊r⌋ + 1
  else if ⌊r⌋ % 2 = 0 then ⌊r⌋ else ⌊r⌋ + 1

/-- The exponent of the unit in the last place of `q` in a binary format with
`prec` significand bits whose smallest positive (subnormal) value is
`2 ^ emin`. -/
def ulpExponent (prec : ℕ) (emin : ℤ) (q : ℚ) : ℤ :=
  max (Int.log 2 |q| - ((prec : ℤ) - 1)) emin

/-- The value of the binary format nearest to `q`, ties to even.  The format
has no largest exponent: overflow to infinity is outside the model, and every
value the clock and the ramps round is below 64. -/
def roundTo (prec : ℕ) (emin : ℤ) (q : ℚ) : ℚ :=
  (roundNearestEven (q / 2 ^ ulpExponent prec emin q) : ℚ) * 2 ^ ulpExponent prec emin q

/-- Rounding to `float` (binary32: 24 significand bits, smallest subnormal
`2^-149`). -/
def roundFloat (q : ℚ) : ℚ := roundTo 24 (-149) q

/-- Rounding to `double` (binary64: 53 significand bits, smallest subnormal
`2^-1074`). -/
def roundDouble (q : ℚ) : ℚ := roundTo 53 (-1074) q

/-- The value stored by `float animProgress = fmod(glfwGetTime(), 10.0f) / 10.0f;`
(main.cpp:239) for the double `time` returned by `glfwGetTime()`: `fmod` of
doubles is exact, the division by `10.0` is a double division, and the
initialisation narrows the double quotient to `float`. -/
def animProgress (time : ℚ) : ℚ := roundFloat (roundDouble (fmod time 10 / 10))

end Animation

/-! ## Theorems -/

section CurveTheorems

variable {α : Type} [Field α]

theorem vec3_add_def (a b : Vec3 α) : a + b = ⟨a.x + b.x, a.y + b.y, a.z + b.z⟩ := rfl

theorem vec3_sub_def (a b : Vec3 α) : a - b = ⟨a.x - b.x, a.y - b.y, a.z - b.z⟩ := rfl

theorem vec3_smul_def (s : α) (v : Vec3 α) : s * v = (⟨s * v.x, s * v.y, s * v.z⟩ : Vec3 α) := rfl

theorem vec3_muls_def (v : Vec3 α) (s : α) : v * s = (⟨v.x * s, v.y * s, v.z * s⟩ : Vec3 α) := rfl

theorem getBezierPoint_four (t : α) (P0 P1 P2 P3 : Vec3 α) :
    getBezierPoint t [P0, P1, P2, P3] =
      ⟨(1 - t) * (1 - t) * (1 - t) * P0.x + 3 * ((1 - t) * (1 - t)) * t * P1.x
          + 3 * (1 - t) * (t * t) * P2.x + t * t * t * P3.x,
       (1 - t) * (1 - t) * (1 - t) * P0.y + 3 * ((1 - t) * (1 - t)) * t * P1.y
          + 3 * (1 - t) * (t * t) * P2.y + t * t * t * P3.y,
       (1 - t) * (1 - t) * (1 - t) * P0.z + 3 * ((1 - t) * (1 - t)) * t * P1.z
          + 3 * (1 - t) * (t * t) * P2.z + t * t * t * P3.z⟩ := by
  simp [getBezierPoint, at_, vec3_add_def, vec3_smul_def]

/-- C1: the curve interpolates its end points: for any four control points
`getBezierPoint 0 = P0` and `getBezierPoint 1 = P3`; for the road's control
points the curve starts at `(-50,0,0)` and ends at `(50,0,50)`. -/
theorem getBezierPoint_endpoints (P0 P1 P2 P3 : Vec3 α) :
    getBezierPoint 0 [P0, P1, P2, P3] = P0 ∧
    getBezierPoint 1 [P0, P1, P2, P3] = P3 ∧
    getBezierPoint 0 (roadControlPoints : List (Vec3 α)) = ⟨-50, 0, 0⟩ ∧
    getBezierPoint 1 (roadControlPoints : List (Vec3 α)) = ⟨50, 0, 50⟩ := by
  refine ⟨?_, ?_, ?_, ?_⟩
  · rw [getBezierPoint_four]; ext <;> simp
  · rw [getBezierPoint_four]; ext <;> simp
  · rw [roadControlPoints, getBezierPoint_four]; ext <;> simp
  · rw [roadControlPoints, getBezierPoint_four]; ext <;> simp

end CurveTheorems

theorem bezierTangentVector_four {α : Type} [Field α] (t : α) (P0 P1 P2 P3 : Vec3 α) :
    bezierTangentVector t [P0, P1, P2, P3] =
      ⟨-3 * ((1 - t) * (1 - t)) * P0.x + 3 * ((1 - t) * (1 - t) - 2 * (1 - t) * t) * P1.x
          + 3 * (2 * (1 - t) * t - t * t) * P2.x + 3 * (t * t) * P3.x,
       -3 * ((1 - t) * (1 - t)) * P0.y + 3 * ((1 - t) * (1 - t) - 2 * (1 - t) * t) * P1.y
          + 3 * (2 * (1 - t) * t - t * t) * P2.y + 3 * (t * t) * P3.y,
       -3 * ((1 - t) * (1 - t)) * P0.z + 3 * ((1 - t) * (1 - t) - 2 * (1 - t) * t) * P1.z
          + 3 * (2 * (1 - t) * t - t * t) * P2.z + 3 * (t * t) * P3.z⟩ := by
  simp [bezierTangentVector, at_, vec3_add_def, vec3_smul_def]

/-- The derivative of one coordinate of the cubic Bezier polynomial. -/
theorem bezier_coordinate_hasDerivAt (a b c d t : ℝ) :
    HasDerivAt
      (fun s : ℝ => (1 - s) * (1 - s) * (1 - s) * a + 3 * ((1 - s) * (1 - s)) * s * b
          + 3 * (1 - s) * (s * s) * c + s * s * s * d)
      (-3 * ((1 - t) * (1 - t)) * a + 3 * ((1 - t) * (1 - t) - 2 * (1 - t) * t) * b
          + 3 * (2 * (1 - t) * t - t * t) * c + 3 * (t * t) * d) t := by
  have hid : HasDerivAt (fun s : ℝ => s) 1 t := hasDerivAt_id t
  have hu : HasDerivAt (fun s : ℝ => 1 - s) (-1) t := by
    simpa using (hasDerivAt_const t (1 : ℝ)).sub hid
  have h := ((((hu.mul hu).mul hu).mul_const a).add
    ((((hu.mul hu).const_mul 3).mul hid).mul_const b)).add
    (((hu.const_mul 3).mul (hid.mul hid)).mul_const c) |>.add
    (((hid.mul hid).mul hid).mul_const d)
  exact h.congr_deriv (by ring)

/-- C2: for every real `t` and four control points, `getBezierPoint` is the
cubic Bezier polynomial `(1-t)^3 P0 + 3(1-t)^2 t P1 + 3(1-t) t^2 P2 + t^3 P3`,
`getBezierTangent` normalises the vector
`-3(1-t)^2 P0 + 3((1-t)^2 - 2(1-t)t) P1 + 3(2(1-t)t - t^2) P2 + 3t^2 P3`, and
that vector is, coordinate by coordinate, the derivative of `getBezierPoint`
with respect to `t`. -/
theorem getBezier_formula_and_derivative (inversesqrt : ℝ → ℝ) (t : ℝ)
    (P0 P1 P2 P3 : Vec3 ℝ) :
    getBezierPoint t [P0, P1, P2, P3] =
        ((1 - t) ^ 3 * P0 + (3 * (1 - t) ^ 2 * t) * P1 + (3 * (1 - t) * t ^ 2) * P2
          + t ^ 3 * P3 : Vec3 ℝ) ∧
    getBezierTangent inversesqrt t [P0, P1, P2, P3] =
        Vec3.normalize inversesqrt
          ((-3 * (1 - t) ^ 2) * P0 + (3 * ((1 - t) ^ 2 - 2 * (1 - t) * t)) * P1
            + (3 * (2 * (1 - t) * t - t ^ 2)) * P2 + (3 * t ^ 2) * P3 : Vec3 ℝ) ∧
    bezierTangentVector t [P0, P1, P2, P3] =
        ((-3 * (1 - t) ^ 2) * P0 + (3 * ((1 - t) ^ 2 - 2 * (1 - t) * t)) * P1
            + (3 * (2 * (1 - t) * t - t ^ 2)) * P2 + (3 * t ^ 2) * P3 : Vec3 ℝ) ∧
    HasDerivAt (fun s : ℝ => (getBezierPoint s [P0, P1, P2, P3]).x)
        (bezierTangentVector t [P0, P1, P2, P3]).x t ∧
    HasDerivAt (fun s : ℝ => (getBezierPoint s [P0, P1, P2, P3]).y)
        (bezierTangentVector t [P0, P1, P2, P3]).y t ∧
    HasDerivAt (fun s : ℝ => (getBezierPoint s [P0, P1, P2, P3]).z)
        (bezierTangentVector t [P0, P1, P2, P3]).z t := by
  have hvec : bezierTangentVector t [P0, P1, P2, P3] =
        ((-3 * (1 - t) ^ 2) * P0 + (3 * ((1 - t) ^ 2 - 2 * (1 - t) * t)) * P1
            + (3 * (2 * (1 - t) * t - t ^ 2)) * P2 + (3 * t ^ 2) * P3 : Vec3 ℝ) := by
    rw [bezierTangentVector_four]
    ext <;> simp [vec3_add_def, vec3_smul_def] <;> ring
  refine ⟨?_, ?_, hvec, ?_, ?_, ?_⟩
  · rw [getBezierPoint_four]
    ext <;> simp [vec3_add_def, vec3_smul_def] <;> ring
  · rw [getBezierTangent, hvec]
  · simp only [getBezierPoint_four, bezierTangentVector_four]
    exact bezier_coordinate_hasDerivAt _ _ _ _ t
  · simp only [getBezierPoint_four, bezierTangentVector_four]
    exact bezier_coordinate_hasDerivAt _ _ _ _ t
  · simp only [getBezierPoint_four, bezierTangentVector_four]
    exact bezier_coordinate_hasDerivAt _ _ _ _ t

theorem road_tangent_vector (t : ℝ) :
    bezierTangentVector t (roadControlPoints : List (Vec3 ℝ)) =
      ⟨75 + 150 * ((1 - t) * t), 0, 300 * ((1 - t) * t)⟩ := by
  rw [roadControlPoints, bezierTangentVector_four]
  ext <;> simp <;> ring

/-- C3: for the road's control points and every `t` in `[0,1]` the vector
normalised by `getBezierTangent` is not the zero vector, the square root that
the normalisation divides by is not zero, and (with `inversesqrt x = 1/√x`)
`getBezierTangent t` has Euclidean length exactly 1. -/
theorem road_tangent_unit_length (t : ℝ) (h0 : 0 ≤ t) (h1 : t ≤ 1) :
    bezierTangentVector t (roadControlPoints : List (Vec3 ℝ)) ≠ 0 ∧
    Real.sqrt (Vec3.dot (bezierTangentVector t (roadControlPoints : List (Vec3 ℝ)))
      (bezierTangentVector t roadControlPoints)) ≠ 0 ∧
    Vec3.length Real.sqrt
      (getBezierTangent (fun x => 1 / Real.sqrt x) t (roadControlPoints : List (Vec3 ℝ))) = 1 := by
  have hx : 0 < (bezierTangentVector t (roadControlPoints : List (Vec3 ℝ))).x := by
    rw [road_tangent_vector]
    have : 0 ≤ (1 - t) * t := mul_nonneg (by linarith) h0
    show (0 : ℝ) < 75 + 150 * ((1 - t) * t)
    linarith
  unfold getBezierTangent Vec3.length
  generalize bezierTangentVector t (roadControlPoints : List (Vec3 ℝ)) = d at hx ⊢
  have hdot : 0 < Vec3.dot d d := by
    have hxx : 0 < d.x * d.x := mul_pos hx hx
    have hyy : 0 ≤ d.y * d.y := mul_self_nonneg _
    have hzz : 0 ≤ d.z * d.z := mul_self_nonneg _
    show 0 < d.x * d.x + d.y * d.y + d.z * d.z
    linarith
  have hsqrt : 0 < Real.sqrt (Vec3.dot d d) := Real.sqrt_pos.mpr hdot
  refine ⟨?_, hsqrt.ne', ?_⟩
  · intro h
    rw [h] at hx
    exact lt_irrefl _ hx
  · have hmul : Real.sqrt (Vec3.dot d d) * Real.sqrt (Vec3.dot d d) = Vec3.dot d d :=
      Real.mul_self_sqrt hdot.le
    have hone : Vec3.dot (Vec3.normalize (fun x => 1 / Real.sqrt x) d)
        (Vec3.normalize (fun x => 1 / Real.sqrt x) d) = 1 := by
      have hexp : Vec3.dot (Vec3.normalize (fun x => 1 / Real.sqrt x) d)
          (Vec3.normalize (fun x => 1 / Real.sqrt x) d)
          = Vec3.dot d d * (1 / Real.sqrt (Vec3.dot d d)) * (1 / Real.sqrt (Vec3.dot d d)) := by
        simp only [Vec3.normalize, Vec3.muls, Vec3.dot]
        ring
      rw [hexp]
      nth_rewrite 1 [← hmul]
      field_simp
    show Real.sqrt (Vec3.dot (Vec3.normalize (fun x => 1 / Real.sqrt x) d)
        (Vec3.normalize (fun x => 1 / Real.sqrt x) d)) = 1
    rw [hone, Real.sqrt_one]

/-- C3 at `t = 1/2`. -/
theorem road_tangent_unit_length_witness :
    (0 : ℝ) ≤ 1 / 2 ∧ (1 / 2 : ℝ) ≤ 1 ∧
    Vec3.length Real.sqrt
      (getBezierTangent (fun x => 1 / Real.sqrt x) (1 / 2) (roadControlPoints : List (Vec3 ℝ)))
        = 1 :=
  ⟨by norm_num, by norm_num, (road_tangent_unit_length (1 / 2) (by norm_num) (by norm_num)).2.2⟩

section AnimationTheorems

theorem fmod_of_nonneg {α : Type} [LinearOrderedField α] [FloorRing α] (x : α) (hx : 0 ≤ x) :
    fmod x 10 = Int.fract (x / 10) * 10 := by
  have hq : (0 : α) ≤ x / 10 := div_nonneg hx (by norm_num)
  unfold fmod truncate
  rw [if_pos hq, Int.fract]
  ring

/-- The nearest integer is within one half. -/
theorem roundNearestEven_near (r : ℚ) :
    (roundNearestEven r : ℚ) - 1 / 2 ≤ r ∧ r ≤ (roundNearestEven r : ℚ) + 1 / 2 := by
  have hf : (⌊r⌋ : ℚ) ≤ r := Int.floor_le r
  have hl : r < (⌊r⌋ : ℚ) + 1 := Int.lt_floor_add_one r
  unfold roundNearestEven
  split_ifs with h1 h2 h3
  · constructor <;> linarith
  · push_cast; constructor <;> linarith
  · constructor <;> linarith
  · push_cast; constructor <;> linarith

/-- A value strictly within one half of an integer rounds to it. -/
theorem roundNearestEven_eq (r : ℚ) (n : ℤ) (hlo : (n : ℚ) - 1 / 2 < r)
    (hhi : r < (n : ℚ) + 1 / 2) : roundNearestEven r = n := by
  obtain ⟨h1, h2⟩ := roundNearestEven_near r
  have ha : ((roundNearestEven r - n : ℤ) : ℚ) < 1 := by push_cast; linarith
  have hb : (-1 : ℚ) < ((roundNearestEven r - n : ℤ) : ℚ) := by push_cast; linarith
  have ha' : roundNearestEven r - n < 1 := by exact_mod_cast ha
  have hb' : -1 < roundNearestEven r - n := by exact_mod_cast hb
  omega

theorem roundNearestEven_intCast (n : ℤ) : roundNearestEven (n : ℚ) = n :=
  roundNearestEven_eq _ n (by linarith) (by linarith)

theorem roundNearestEven_mono {r s : ℚ} (hrs : r ≤ s) :
    roundNearestEven r ≤ roundNearestEven s := by
  by_contra hlt
  push_neg at hlt
  have hint : roundNearestEven s + 1 ≤ roundNearestEven r := hlt
  have hq : (roundNearestEven s : ℚ) + 1 ≤ (roundNearestEven r : ℚ) := by exact_mod_cast hint
  obtain ⟨h1, -⟩ := roundNearestEven_near r
  obtain ⟨-, h2⟩ := roundNearestEven_near s
  have heq : r = s := by linarith
  rw [heq] at hlt
  exact lt_irrefl _ hlt

theorem log_eq_of_binade (q : ℚ) (e : ℤ) (h1 : (2 : ℚ) ^ e ≤ q) (h2 : q < (2 : ℚ) ^ (e + 1)) :
    Int.log 2 q = e := by
  have hpos : 0 < q := lt_of_lt_of_le (by positivity) h1
  have ha : e ≤ Int.log 2 q := by
    rw [← Int.zpow_le_iff_le_log (by norm_num) hpos]
    exact_mod_cast h1
  have hb : Int.log 2 q < e + 1 := by
    rw [← Int.lt_zpow_iff_log_lt (by norm_num) hpos]
    exact_mod_cast h2
  omega

theorem ulpExponent_of_binade (prec : ℕ) (emin : ℤ) (q : ℚ) (e : ℤ)
    (h1 : (2 : ℚ) ^ e ≤ |q|) (h2 : |q| < (2 : ℚ) ^ (e + 1))
    (he : emin ≤ e - ((prec : ℤ) - 1)) :
    ulpExponent prec emin q = e - ((prec : ℤ) - 1) := by
  unfold ulpExponent
  rw [log_eq_of_binade _ e h1 h2]
  exact max_eq_left he

/-- Evaluation of `roundTo` on a value of the binade `[2^e, 2^(e+1))` that is
strictly within half a unit in the last place of `n * 2^(e - (prec - 1))`. -/
theorem roundTo_eq (prec : ℕ) (emin : ℤ) (q : ℚ) (e n : ℤ)
    (h1 : (2 : ℚ) ^ e ≤ |q|) (h2 : |q| < (2 : ℚ) ^ (e + 1))
    (he : emin ≤ e - ((prec : ℤ) - 1))
    (hlo : (n : ℚ) - 1 / 2 < q / 2 ^ (e - ((prec : ℤ) - 1)))
    (hhi : q / 2 ^ (e - ((prec : ℤ) - 1)) < (n : ℚ) + 1 / 2) :
    roundTo prec emin q = (n : ℚ) * 2 ^ (e - ((prec : ℤ) - 1)) := by
  unfold roundTo
  rw [ulpExponent_of_binade prec emin q e h1 h2 he, roundNearestEven_eq _ n hlo hhi]

theorem roundTo_zero (prec : ℕ) (emin : ℤ) : roundTo prec emin 0 = 0 := by
  unfold roundTo
  rw [zero_div, show ((0 : ℚ)) = ((0 : ℤ) : ℚ) by norm_num, roundNearestEven_intCast]
  simp

theorem roundTo_nonneg (prec : ℕ) (emin : ℤ) (q : ℚ) (hq : 0 ≤ q) : 0 ≤ roundTo prec emin q := by
  unfold roundTo
  have hpow : (0 : ℚ) < 2 ^ ulpExponent prec emin q := by positivity
  have hr : ((0 : ℤ) : ℚ) ≤ q / 2 ^ ulpExponent prec emin q := by
    push_cast
    exact div_nonneg hq hpow.le
  have hn : (0 : ℤ) ≤ roundNearestEven (q / 2 ^ ulpExponent prec emin q) := by
    have := roundNearestEven_mono hr
    rwa [roundNearestEven_intCast] at this
  have hnq : (0 : ℚ) ≤ (roundNearestEven (q / 2 ^ ulpExponent prec emin q) : ℚ) := by
    exact_mod_cast hn
  exact mul_nonneg hnq hpow.le

/-- A value below a multiple `N * 2^u` of its own unit in the last place
rounds to at most that multiple. -/
theorem roundTo_le_grid (prec : ℕ) (emin : ℤ) (q : ℚ) (N : ℤ)
    (h : q ≤ (N : ℚ) * 2 ^ ulpExponent prec emin q) :
    roundTo prec emin q ≤ (N : ℚ) * 2 ^ ulpExponent prec emin q := by
  unfold roundTo
  have hpow : (0 : ℚ) < 2 ^ ulpExponent prec emin q := by positivity
  have hr : q / 2 ^ ulpExponent prec emin q ≤ (N : ℚ) := by
    rw [div_le_iff₀ hpow]
    exact h
  have hn := roundNearestEven_mono hr
  rw [roundNearestEven_intCast] at hn
  have hnq : (roundNearestEven (q / 2 ^ ulpExponent prec emin q) : ℚ) ≤ (N : ℚ) := by
    exact_mod_cast hn
  exact mul_le_mul_of_nonneg_right hnq hpow.le

theorem roundTo_ge_grid (prec : ℕ) (emin : ℤ) (q : ℚ) (N : ℤ)
    (h : (N : ℚ) * 2 ^ ulpExponent prec emin q ≤ q) :
    (N : ℚ) * 2 ^ ulpExponent prec emin q ≤ roundTo prec emin q := by
  unfold roundTo
  have hpow : (0 : ℚ) < 2 ^ ulpExponent prec emin q := by positivity
  have hr : (N : ℚ) ≤ q / 2 ^ ulpExponent prec emin q := by
    rw [le_div_iff₀ hpow]
    exact h
  have hn := roundNearestEven_mono hr
  rw [roundNearestEven_intCast] at hn
  have hnq : (N : ℚ) ≤ (roundNearestEven (q / 2 ^ ulpExponent prec emin q) : ℚ) := by
    exact_mod_cast hn
  exact mul_le_mul_of_nonneg_right hnq hpow.le

/-- Rounding is monotone on the non-negative values. -/
theorem roundTo_mono (prec : ℕ) (emin : ℤ) (hprec : 1 ≤ prec) (a b : ℚ) (ha : 0 ≤ a)
    (hab : a ≤ b) : roundTo prec emin a ≤ roundTo prec emin b := by
  rcases eq_or_lt_of_le ha with h0 | hpos
  · rw [← h0, roundTo_zero]
    exact roundTo_nonneg prec emin b (le_trans ha hab)
  have hbpos : 0 < b := lt_of_lt_of_le hpos hab
  have hlog : Int.log 2 |a| ≤ Int.log 2 |b| := by
    rw [abs_of_pos hpos, abs_of_pos hbpos]
    exact Int.log_mono_right hpos hab
  have hu : ulpExponent prec emin a ≤ ulpExponent prec emin b := by
    unfold ulpExponent
    exact max_le_max (by omega) (le_refl _)
  rcases eq_or_lt_of_le hu with heq | hlt
  · unfold roundTo
    rw [← heq]
    have hpow : (0 : ℚ) < 2 ^ ulpExponent prec emin a := by positivity
    have hr : a / 2 ^ ulpExponent prec emin a ≤ b / 2 ^ ulpExponent prec emin a :=
      div_le_div_of_nonneg_right hab hpow.le
    have hn := roundNearestEven_mono hr
    have hnq : (roundNearestEven (a / 2 ^ ulpExponent prec emin a) : ℚ)
        ≤ (roundNearestEven (b / 2 ^ ulpExponent prec emin a) : ℚ) := by exact_mod_cast hn
    exact mul_le_mul_of_nonneg_right hnq hpow.le
  · -- the power of two `2 ^ log b` separates `a` from `b` and lies on both grids
    have hub : ulpExponent prec emin b = Int.log 2 |b| - ((prec : ℤ) - 1) := by
      unfold ulpExponent at hlt ⊢
      rcases le_total (Int.log 2 |b| - ((prec : ℤ) - 1)) emin with hle | hge
      · exfalso
        rw [max_eq_right hle] at hlt
        exact absurd (le_max_right _ _) (not_le.mpr hlt)
      · exact max_eq_left hge
    have hua : Int.log 2 |a| - ((prec : ℤ) - 1) ≤ ulpExponent prec emin a := le_max_left _ _
    have hloglt : Int.log 2 |a| + 1 ≤ Int.log 2 |b| := by omega
    rw [abs_of_pos hpos] at hloglt hua
    rw [abs_of_pos hbpos] at hloglt hub
    have hXb : (2 : ℚ) ^ Int.log 2 b ≤ b := by
      have := Int.zpow_log_le_self (b := 2) (by norm_num) hbpos
      exact_mod_cast this
    have haX : a ≤ (2 : ℚ) ^ Int.log 2 b := by
      have h1 : a < ((2 : ℕ) : ℚ) ^ (Int.log 2 a + 1) :=
        Int.lt_zpow_succ_log_self (by norm_num) a
      have h2 : (2 : ℚ) ^ (Int.log 2 a + 1) ≤ (2 : ℚ) ^ Int.log 2 b :=
        zpow_le_zpow_right₀ (by norm_num) hloglt
      have h1' : a < (2 : ℚ) ^ (Int.log 2 a + 1) := by exact_mod_cast h1
      linarith
    have hprec' : (1 : ℤ) ≤ (prec : ℤ) := by exact_mod_cast hprec
    -- on the grid of `a`
    have hda : 0 ≤ Int.log 2 b - ulpExponent prec emin a := by omega
    have hgridA : (2 : ℚ) ^ Int.log 2 b
        = (((2 : ℤ) ^ (Int.log 2 b - ulpExponent prec emin a).toNat : ℤ) : ℚ)
          * 2 ^ ulpExponent prec emin a := by
      push_cast
      rw [← zpow_natCast, Int.toNat_of_nonneg hda, ← zpow_add₀ (by norm_num)]
      congr 1
      ring
    have hdb : 0 ≤ Int.log 2 b - ulpExponent prec emin b := by omega
    have hgridB : (2 : ℚ) ^ Int.log 2 b
        = (((2 : ℤ) ^ (Int.log 2 b - ulpExponent prec emin b).toNat : ℤ) : ℚ)
          * 2 ^ ulpExponent prec emin b := by
      push_cast
      rw [← zpow_natCast, Int.toNat_of_nonneg hdb, ← zpow_add₀ (by norm_num)]
      congr 1
      ring
    have hA := roundTo_le_grid prec emin a _ (by rw [← hgridA]; exact haX)
    have hB := roundTo_ge_grid prec emin b _ (by rw [← hgridB]; exact hXb)
    rw [← hgridA] at hA
    rw [← hgridB] at hB
    exact le_trans hA hB

/-- Evaluation of `roundFloat` on a value that is a multiple `n * 2^(e - 23)`
of the unit in the last place of its binade `[2^e, 2^(e+1))`. -/
theorem roundFloat_exact (q : ℚ) (e n : ℤ) (h1 : (2 : ℚ) ^ e ≤ |q|)
    (h2 : |q| < (2 : ℚ) ^ (e + 1)) (he : -149 ≤ e - 23)
    (hq : q = (n : ℚ) * 2 ^ (e - 23)) : roundFloat q = q := by
  have hpow : (0 : ℚ) < 2 ^ (e - 23) := by positivity
  have hdiv : q / 2 ^ (e - (((24 : ℕ) : ℤ) - 1)) = (n : ℚ) := by
    rw [show e - (((24 : ℕ) : ℤ) - 1) = e - 23 by norm_num, hq]
    field_simp
  unfold roundFloat
  rw [roundTo_eq 24 (-149) q e n h1 h2 (by norm_num; omega) (by rw [hdiv]; linarith)
    (by rw [hdiv]; linarith)]
  rw [show e - (((24 : ℕ) : ℤ) - 1) = e - 23 by norm_num, ← hq]

theorem roundFloat_one : roundFloat 1 = 1 :=
  roundFloat_exact 1 0 8388608 (by norm_num) (by norm_num) (by norm_num) (by norm_num)

theorem roundFloat_mono (a b : ℚ) (ha : 0 ≤ a) (hab : a ≤ b) : roundFloat a ≤ roundFloat b :=
  roundTo_mono 24 (-149) (by norm_num) a b ha hab

theorem roundDouble_mono (a b : ℚ) (ha : 0 ≤ a) (hab : a ≤ b) :
    roundDouble a ≤ roundDouble b :=
  roundTo_mono 53 (-1074) (by norm_num) a b ha hab

theorem roundDouble_one : roundDouble 1 = 1 := by
  unfold roundDouble
  rw [roundTo_eq 53 (-1074) 1 0 4503599627370496 (by norm_num) (by norm_num) (by norm_num)
    (by norm_num) (by norm_num)]
  norm_num

theorem roundFloat_eq (q v : ℚ) (e n : ℤ) (h1 : (2 : ℚ) ^ e ≤ |q|)
    (h2 : |q| < (2 : ℚ) ^ (e + 1)) (he : -149 ≤ e - 23)
    (hlo : (n : ℚ) - 1 / 2 < q / 2 ^ (e - 23)) (hhi : q / 2 ^ (e - 23) < (n : ℚ) + 1 / 2)
    (hv : v = (n : ℚ) * 2 ^ (e - 23)) : roundFloat q = v := by
  have hu : e - (((24 : ℕ) : ℤ) - 1) = e - 23 := by norm_num
  unfold roundFloat
  rw [roundTo_eq 24 (-149) q e n h1 h2 (by rw [hu]; exact he) (by rw [hu]; exact hlo)
    (by rw [hu]; exact hhi), hu, hv]

theorem roundDouble_eq (q v : ℚ) (e n : ℤ) (h1 : (2 : ℚ) ^ e ≤ |q|)
    (h2 : |q| < (2 : ℚ) ^ (e + 1)) (he : -1074 ≤ e - 52)
    (hlo : (n : ℚ) - 1 / 2 < q / 2 ^ (e - 52)) (hhi : q / 2 ^ (e - 52) < (n : ℚ) + 1 / 2)
    (hv : v = (n : ℚ) * 2 ^ (e - 52)) : roundDouble q = v := by
  have hu : e - (((53 : ℕ) : ℤ) - 1) = e - 52 := by norm_num
  unfold roundDouble
  rw [roundTo_eq 53 (-1074) q e n h1 h2 (by rw [hu]; exact he) (by rw [hu]; exact hlo)
    (by rw [hu]; exact hhi), hu, hv]

theorem fmod_lt_ten (x : ℚ) (h0 : 0 ≤ x) (h1 : x < 10) : fmod x 10 = x := by
  rw [fmod_of_nonneg x h0]
  have hx10 : Int.fract (x / 10) = x / 10 := by
    rw [Int.fract_eq_self]
    constructor
    · exact div_nonneg h0 (by norm_num)
    · rw [div_lt_one (by norm_num)]
      exact h1
  rw [hx10]
  field_simp

theorem animProgress_last_reading : animProgress (10 - 1 / 2 ^ 30) = 1 := by
  have hd : roundDouble ((10 - 1 / 2 ^ 30) / 10) = 9007199253902131 / 2 ^ 53 :=
    roundDouble_eq _ _ (-1) 9007199253902131 (by norm_num [abs_of_pos])
      (by norm_num [abs_of_pos]) (by norm_num) (by norm_num) (by norm_num) (by norm_num)
  unfold animProgress
  rw [fmod_lt_ten _ (by norm_num) (by norm_num), hd]
  exact roundFloat_eq _ _ (-1) 16777216 (by norm_num [abs_of_pos]) (by norm_num [abs_of_pos])
    (by norm_num) (by norm_num) (by norm_num) (by norm_num)

theorem animProgress_one : animProgress 1 = 13421773 / 2 ^ 27 := by
  have hd : roundDouble (1 / 10) = 7205759403792794 / 2 ^ 56 :=
    roundDouble_eq _ _ (-4) 7205759403792794 (by norm_num [abs_of_pos])
      (by norm_num [abs_of_pos]) (by norm_num) (by norm_num) (by norm_num) (by norm_num)
  unfold animProgress
  rw [fmod_lt_ten _ (by norm_num) (by norm_num), hd]
  exact roundFloat_eq _ _ (-4) 13421773 (by norm_num [abs_of_pos]) (by norm_num [abs_of_pos])
    (by norm_num) (by norm_num) (by norm_num) (by norm_num)

theorem roundDouble_last_reading : roundDouble (10 - 1 / 2 ^ 30) = 10 - 1 / 2 ^ 30 :=
  roundDouble_eq _ _ 3 5629499533688832 (by norm_num [abs_of_pos]) (by norm_num [abs_of_pos])
    (by norm_num) (by norm_num) (by norm_num) (by norm_num)

theorem roundDouble_eleven : roundDouble 11 = 11 :=
  roundDouble_eq _ _ 3 6192449487634432 (by norm_num) (by norm_num)
    (by norm_num) (by norm_num) (by norm_num) (by norm_num)

/-- The exact quotient `fmod(e, 10) / 10` lies in `[0, 1)`. -/
theorem fmod_quotient_range (e : ℚ) (he : 0 ≤ e) :
    0 ≤ fmod e 10 / 10 ∧ fmod e 10 / 10 < 1 := by
  have heq : fmod e 10 / 10 = Int.fract (e / 10) := by
    rw [fmod_of_nonneg e he]
    field_simp
  rw [heq]
  exact ⟨Int.fract_nonneg _, Int.fract_lt_one _⟩

/-- C4, the claim as stated fails: the clock reading `10 - 2^-30` is a double,
its quotient by 10 rounds to `1.0f`, so the stored progress is not below 1. -/
theorem animProgress_reaches_one :
    roundDouble (10 - 1 / 2 ^ 30) = 10 - 1 / 2 ^ 30 ∧
    animProgress (10 - 1 / 2 ^ 30) = 1 ∧
    ¬ ((0 : ℚ) ≤ 10 - 1 / 2 ^ 30 →
      0 ≤ animProgress (10 - 1 / 2 ^ 30) ∧ animProgress (10 - 1 / 2 ^ 30) < 1) := by
  refine ⟨roundDouble_last_reading, animProgress_last_reading, ?_⟩
  intro h
  have hlt := (h (by norm_num)).2
  rw [animProgress_last_reading] at hlt
  exact lt_irrefl _ hlt

/-- C4, amended: for every elapsed time `e ≥ 0` the exact quotient
`fmod(e, 10) / 10` lies in `[0, 1)`, and the progress the program stores (that
quotient rounded to double, then to float) lies in the closed range
`[0, 1]`. -/
theorem animProgress_range (e : ℚ) (he : 0 ≤ e) :
    0 ≤ fmod e 10 / 10 ∧ fmod e 10 / 10 < 1 ∧
    0 ≤ animProgress e ∧ animProgress e ≤ 1 := by
  obtain ⟨h0, h1⟩ := fmod_quotient_range e he
  have hd0 : 0 ≤ roundDouble (fmod e 10 / 10) := roundTo_nonneg 53 (-1074) _ h0
  have hd1 : roundDouble (fmod e 10 / 10) ≤ 1 := by
    have := roundDouble_mono _ 1 h0 h1.le
    rwa [roundDouble_one] at this
  refine ⟨h0, h1, roundTo_nonneg 24 (-149) _ hd0, ?_⟩
  have := roundFloat_mono _ 1 hd0 hd1
  rwa [roundFloat_one] at this

/-- C4 amended, at the clock reading `e = 25`. -/
theorem animProgress_range_witness :
    (0 : ℚ) ≤ 25 ∧ 0 ≤ animProgress 25 ∧ animProgress 25 ≤ 1 :=
  ⟨by norm_num, (animProgress_range 25 (by norm_num)).2.2⟩

/-- C9, the claim as stated fails: at `k = 1`, `x = 1` (the reading 11 is a
double) the stored progress is the float `13421773 / 2^27`, not `1/10`. -/
theorem animProgress_not_tenth :
    roundDouble 11 = 11 ∧
    animProgress 1 = 13421773 / 2 ^ 27 ∧
    ¬ ((0 : ℚ) ≤ 1 → (1 : ℚ) < 10 →
      animProgress (10 * ((1 : ℕ) : ℚ) + 1) = animProgress 1 ∧ animProgress 1 = 1 / 10) := by
  refine ⟨roundDouble_eleven, animProgress_one, ?_⟩
  intro h
  have heq := (h (by norm_num) (by norm_num)).2
  rw [animProgress_one] at heq
  norm_num at heq

/-- C9, amended: the progress has period 10: for every natural `k` and every
`x` with `0 ≤ x < 10`, `fmod(10 k + x, 10) = x` and
`progress (10 k + x) = progress x`, which is `x / 10` rounded to double and
then to float. -/
theorem animProgress_periodic (k : ℕ) (x : ℚ) (h0 : 0 ≤ x) (h1 : x < 10) :
    fmod (10 * (k : ℚ) + x) 10 = x ∧
    animProgress (10 * (k : ℚ) + x) = animProgress x ∧
    animProgress x = roundFloat (roundDouble (x / 10)) := by
  have hk : (0 : ℚ) ≤ 10 * (k : ℚ) + x := by positivity
  have hsplit : (10 * (k : ℚ) + x) / 10 = x / 10 + ((k : ℤ) : ℚ) := by
    push_cast
    ring
  have hx : fmod x 10 = x := fmod_lt_ten x h0 h1
  have hkx : fmod (10 * (k : ℚ) + x) 10 = x := by
    rw [fmod_of_nonneg _ hk, hsplit, Int.fract_add_int, ← fmod_of_nonneg x h0, hx]
  unfold animProgress
  rw [hkx, hx]
  exact ⟨rfl, rfl, rfl⟩

/-- C9 amended, at `k = 2`, `x = 5/2`. -/
theorem animProgress_periodic_witness :
    (0 : ℚ) ≤ 5 / 2 ∧ (5 / 2 : ℚ) < 10 ∧
    animProgress (10 * ((2 : ℕ) : ℚ) + 5 / 2) = animProgress (5 / 2) :=
  ⟨by norm_num, by norm_num,
    (animProgress_periodic 2 (5 / 2) (by norm_num) (by norm_num)).2.1⟩

end AnimationTheorems

section PlacementTheorems

variable {α : Type} [LinearOrderedField α]

/-- C6, the claim as stated fails: the draw `r1 = 9` gives the height
`10 + 9 * 4 = 46`, which is not below 46. -/
theorem building_height_reaches_46 :
    ¬ ((10 : ℚ) ≤ buildingHeight 9 ∧ buildingHeight 9 < (46 : ℚ) ∧
      (∃ k : ℕ, buildingHeight 9 = (10 : ℚ) + 4 * (k : ℚ)) ∧
      (4 : ℚ) ≤ buildingWidth 0 ∧ buildingWidth 0 < (9 : ℚ)) := by
  intro h
  have h46 : buildingHeight 9 < (46 : ℚ) := h.2.1
  norm_num [buildingHeight] at h46

/-- C6, amended: whatever the two values `r1`, `r2` returned by `std::rand()`,
the height `10 + (r1 % 10) * 4` lies in the closed range `[10, 46]` and is 10
plus a multiple of 4, and the width `4 + (r2 % 5)` lies in `[4, 9)`. -/
theorem building_dimensions_bounded (r1 r2 : ℕ) :
    (10 : α) ≤ buildingHeight r1 ∧ buildingHeight r1 ≤ (46 : α) ∧
    (∃ k : ℕ, buildingHeight r1 = (10 : α) + 4 * (k : α)) ∧
    (4 : α) ≤ buildingWidth r2 ∧ buildingWidth r2 < (9 : α) := by
  have h10 : r1 % 10 < 10 := Nat.mod_lt _ (by norm_num)
  have h5 : r2 % 5 < 5 := Nat.mod_lt _ (by norm_num)
  have h10c : ((r1 % 10 : ℕ) : α) ≤ 9 := by exact_mod_cast Nat.lt_succ_iff.mp h10
  have h5c : ((r2 % 5 : ℕ) : α) ≤ 4 := by exact_mod_cast Nat.lt_succ_iff.mp h5
  have h10n : (0 : α) ≤ ((r1 % 10 : ℕ) : α) := Nat.cast_nonneg _
  have h5n : (0 : α) ≤ ((r2 % 5 : ℕ) : α) := Nat.cast_nonneg _
  unfold buildingHeight buildingWidth
  refine ⟨by linarith, by linarith, ⟨r1 % 10, by ring⟩, by linarith, by linarith⟩

end PlacementTheorems

section RoadTheorems

variable {α : Type} [Field α]

theorem roadSegmentVertices_length (inversesqrt : α → α) (i : ℕ) :
    (roadSegmentVertices inversesqrt i).length = 36 := rfl

theorem roadVerticesAfter_length (inversesqrt : α → α) (n : ℕ) :
    (roadVerticesAfter inversesqrt n).length = 36 * n := by
  induction n with
  | zero => rfl
  | succ n ih =>
    rw [roadVerticesAfter, List.length_append, ih, roadSegmentVertices_length]
    ring

theorem roadVerticesAfter_drop (inversesqrt : α → α) (n i : ℕ) (hi : i < n) :
    ∃ rest, (roadVerticesAfter inversesqrt n).drop (36 * i)
      = roadSegmentVertices inversesqrt i ++ rest := by
  induction n with
  | zero => omega
  | succ n ih =>
    rw [roadVerticesAfter]
    rcases Nat.lt_succ_iff_lt_or_eq.mp hi with hlt | heq
    · obtain ⟨rest, hrest⟩ := ih hlt
      refine ⟨rest ++ roadSegmentVertices inversesqrt n, ?_⟩
      rw [List.drop_append_of_le_length, hrest, List.append_assoc]
      rw [roadVerticesAfter_length]
      omega
    · subst heq
      refine ⟨[], ?_⟩
      rw [List.append_nil]
      exact List.drop_left' (roadVerticesAfter_length inversesqrt i)

theorem roadVertices_segment (inversesqrt : α → α) (i : ℕ) (hi : i < 100) :
    vertexPosition (roadVertices inversesqrt) (6 * i) = some (roadSegment inversesqrt i).v1 ∧
    vertexPosition (roadVertices inversesqrt) (6 * i + 1) = some (roadSegment inversesqrt i).v2 ∧
    vertexPosition (roadVertices inversesqrt) (6 * i + 2) = some (roadSegment inversesqrt i).v3 ∧
    vertexPosition (roadVertices inversesqrt) (6 * i + 4) = some (roadSegment inversesqrt i).v4 := by
  obtain ⟨rest, hrest⟩ := roadVerticesAfter_drop inversesqrt 100 i hi
  have hoff : ∀ k, (roadVertices inversesqrt).drop (6 * (6 * i + k))
      = (roadSegmentVertices inversesqrt i ++ rest).drop (6 * k) := by
    intro k
    rw [← hrest, List.drop_drop, roadVertices]
    congr 1
    ring
  refine ⟨?_, ?_, ?_, ?_⟩
  · have h := hoff 0
    rw [vertexPosition, show 6 * i = 6 * i + 0 from rfl, h]
    rfl
  · rw [vertexPosition, hoff 1]
    rfl
  · rw [vertexPosition, hoff 2]
    rfl
  · rw [vertexPosition, hoff 4]
    rfl

/-- C7: the road ribbon has no gaps: for every segment `i < 99` the trailing
corners `v3`, `v4` of segment `i` (computed at `t2 = (i+1)/100`) are the
leading corners `v1`, `v2` of segment `i + 1` (computed at `t1 = (i+1)/100`),
and so are the positions stored for them in the buffer `roadVertices`. -/
theorem road_ribbon_continuity (inversesqrt : α → α) (i : ℕ) (hi : i < 99) :
    (roadSegment inversesqrt i).v3 = (roadSegment inversesqrt (i + 1)).v1 ∧
    (roadSegment inversesqrt i).v4 = (roadSegment inversesqrt (i + 1)).v2 ∧
    vertexPosition (roadVertices inversesqrt) (6 * i + 2)
      = some (roadSegment inversesqrt i).v3 ∧
    vertexPosition (roadVertices inversesqrt) (6 * (i + 1))
      = some (roadSegment inversesqrt i).v3 ∧
    vertexPosition (roadVertices inversesqrt) (6 * i + 4)
      = some (roadSegment inversesqrt i).v4 ∧
    vertexPosition (roadVertices inversesqrt) (6 * (i + 1) + 1)
      = some (roadSegment inversesqrt i).v4 := by
  have hthis := roadVertices_segment inversesqrt i (by omega)
  have hnext := roadVertices_segment inversesqrt (i + 1) (by omega)
  exact ⟨rfl, rfl, hthis.2.2.1, hnext.1, hthis.2.2.2, hnext.2.1⟩

/-- C7 at segment `i = 3`, with `inversesqrt` read as the constant 1. -/
theorem road_ribbon_continuity_witness :
    3 < 99 ∧
    (roadSegment (fun _ : ℚ => 1) 3).v3 = (roadSegment (fun _ : ℚ => 1) 4).v1 ∧
    (roadSegment (fun _ : ℚ => 1) 3).v4 = (roadSegment (fun _ : ℚ => 1) 4).v2 :=
  ⟨by decide,
    (road_ribbon_continuity (fun _ : ℚ => 1) 3 (by decide)).1,
    (road_ribbon_continuity (fun _ : ℚ => 1) 3 (by decide)).2.1⟩

end RoadTheorems

section SceneTheorems

variable {α : Type} [LinearOrderedField α] [FloorRing α]

/-- A property kept by the body of a `forStep3` loop is kept by the loop. -/
theorem forStep3_preserves {σ : Type} (P : σ → Prop) (x limit : α) (body : α → σ → σ)
    (s : σ) (hbody : ∀ y r, P r → P (body y r)) (hs : P s) :
    P (forStep3 x limit body s) := by
  induction x, limit, body, s using forStep3.induct with
  | case1 x limit body s hlt ih =>
    rw [forStep3, if_pos hlt]
    exact ih hbody (hbody x s hs)
  | case2 x limit body s hge =>
    rw [forStep3, if_neg hge]
    exact hs

/-- The window loops leave the building and streetlight vectors alone. -/
theorem windowGrid_keeps (rand : ℕ → ℕ) (model : Mat4 α) (h w : α) (s : Scene α) :
    (windowGrid rand model h w s).buildingModels = s.buildingModels ∧
    (windowGrid rand model h w s).streetlightPostModels = s.streetlightPostModels ∧
    (windowGrid rand model h w s).streetlightLampModels = s.streetlightLampModels ∧
    (windowGrid rand model h w s).streetlightHoodModels = s.streetlightHoodModels ∧
    (windowGrid rand model h w s).pointLightPositions = s.pointLightPositions := by
  unfold windowGrid
  refine forStep3_preserves
    (fun r : Scene α => r.buildingModels = s.buildingModels ∧
      r.streetlightPostModels = s.streetlightPostModels ∧
      r.streetlightLampModels = s.streetlightLampModels ∧
      r.streetlightHoodModels = s.streetlightHoodModels ∧
      r.pointLightPositions = s.pointLightPositions) _ _ _ s ?_ ⟨rfl, rfl, rfl, rfl, rfl⟩
  intro y r hr
  unfold windowRow
  refine forStep3_preserves
    (fun r : Scene α => r.buildingModels = s.buildingModels ∧
      r.streetlightPostModels = s.streetlightPostModels ∧
      r.streetlightLampModels = s.streetlightLampModels ∧
      r.streetlightHoodModels = s.streetlightHoodModels ∧
      r.pointLightPositions = s.pointLightPositions) _ _ _ r ?_ hr
  intro x q hq
  unfold windowCell
  split <;> exact hq

/-- What one iteration of the placement loop does to the streetlight vectors
and to `buildingModels`. -/
theorem placeBuilding_fields (lm : Libm α) (rand : ℕ → ℕ) (spacing i : ℕ) (s : Scene α) :
    (placeBuilding lm rand spacing i s).buildingModels =
      s.buildingModels ++ [buildingModel lm spacing i (buildingHeight (rand s.randCalls))
        (buildingWidth (rand (s.randCalls + 1)))] ∧
    (placeBuilding lm rand spacing i s).streetlightPostModels =
      (if i % 3 = 0 ∧ s.pointLightPositions.length < MAX_POINT_LIGHTS
        then s.streetlightPostModels ++ [postModel lm spacing i]
        else s.streetlightPostModels) ∧
    (placeBuilding lm rand spacing i s).streetlightLampModels =
      (if i % 3 = 0 ∧ s.pointLightPositions.length < MAX_POINT_LIGHTS
        then s.streetlightLampModels ++ [lampModel lm spacing i]
        else s.streetlightLampModels) ∧
    (placeBuilding lm rand spacing i s).streetlightHoodModels =
      (if i % 3 = 0 ∧ s.pointLightPositions.length < MAX_POINT_LIGHTS
        then s.streetlightHoodModels ++ [hoodModel lm spacing i]
        else s.streetlightHoodModels) ∧
    (placeBuilding lm rand spacing i s).pointLightPositions =
      (if i % 3 = 0 ∧ s.pointLightPositions.length < MAX_POINT_LIGHTS
        then s.pointLightPositions ++ [lampPos lm spacing i]
        else s.pointLightPositions) := by
  obtain ⟨hb, hp, hl, hh, hpl⟩ := windowGrid_keeps rand
    (buildingModel lm spacing i (buildingHeight (rand s.randCalls))
      (buildingWidth (rand (s.randCalls + 1))))
    (buildingHeight (rand s.randCalls)) (buildingWidth (rand (s.randCalls + 1)))
    { s with
      buildingModels := s.buildingModels ++
        [buildingModel lm spacing i (buildingHeight (rand s.randCalls))
          (buildingWidth (rand (s.randCalls + 1)))]
      randCalls := s.randCalls + 2 }
  simp only at hb hp hl hh hpl
  unfold placeBuilding streetlight
  simp only [hpl]
  split <;> simp [hb, hp, hl, hh, hpl]

/-- C5: the point-light count never exceeds `MAX_POINT_LIGHTS = 10`, whatever
the number of buildings and their spacing: after any number `n` of iterations
of the placement loop there are at most 10 point lights, and as many posts,
lamps and hoods as point lights. -/
theorem point_lights_capped (lm : Libm α) (rand : ℕ → ℕ) (spacing n : ℕ) :
    (sceneAfter lm rand spacing n).pointLightPositions.length ≤ MAX_POINT_LIGHTS ∧
    MAX_POINT_LIGHTS = 10 ∧
    (sceneAfter lm rand spacing n).streetlightPostModels.length
      = (sceneAfter lm rand spacing n).pointLightPositions.length ∧
    (sceneAfter lm rand spacing n).streetlightLampModels.length
      = (sceneAfter lm rand spacing n).pointLightPositions.length ∧
    (sceneAfter lm rand spacing n).streetlightHoodModels.length
      = (sceneAfter lm rand spacing n).pointLightPositions.length := by
  induction n with
  | zero => simp [sceneAfter, Scene.empty, MAX_POINT_LIGHTS]
  | succ n ih =>
    obtain ⟨hle, hmax, hp, hl, hh⟩ := ih
    obtain ⟨-, fp, fl, fh, fpl⟩ :=
      placeBuilding_fields lm rand spacing n (sceneAfter lm rand spacing n)
    rw [sceneAfter, fp, fl, fh, fpl]
    refine ⟨?_, hmax, ?_, ?_, ?_⟩
    · split
      · rename_i hc
        rw [List.length_append, List.length_singleton]
        exact hc.2
      · exact hle
    · split <;> simp [hp]
    · split <;> simp [hl]
    · split <;> simp [hh]

/-- After `n` iterations there are at most `(n + 2) / 3` point lights. -/
theorem sceneAfter_lights_le (lm : Libm α) (rand : ℕ → ℕ) (spacing n : ℕ) :
    (sceneAfter lm rand spacing n).pointLightPositions.length * 3 ≤ n + 2 := by
  induction n with
  | zero => simp [sceneAfter, Scene.empty]
  | succ n ih =>
    rw [sceneAfter, (placeBuilding_fields lm rand spacing n _).2.2.2.2]
    split
    · rename_i hc
      rw [List.length_append, List.length_singleton]
      have := hc.1
      omega
    · omega

/-- During the first 20 iterations the cap is not reached. -/
theorem sceneAfter_below_cap (lm : Libm α) (rand : ℕ → ℕ) (spacing i : ℕ) (hi : i < 20) :
    (sceneAfter lm rand spacing i).pointLightPositions.length < MAX_POINT_LIGHTS := by
  have := sceneAfter_lights_le lm rand spacing i
  unfold MAX_POINT_LIGHTS
  omega

/-- The streetlight vectors after `n ≤ 20` iterations, listed by building. -/
theorem sceneAfter_lights (lm : Libm α) (rand : ℕ → ℕ) (spacing n : ℕ) (hn : n ≤ 20) :
    (sceneAfter lm rand spacing n).streetlightPostModels
      = ((List.range n).filter (fun i => i % 3 = 0)).map (postModel lm spacing) ∧
    (sceneAfter lm rand spacing n).streetlightLampModels
      = ((List.range n).filter (fun i => i % 3 = 0)).map (lampModel lm spacing) ∧
    (sceneAfter lm rand spacing n).streetlightHoodModels
      = ((List.range n).filter (fun i => i % 3 = 0)).map (hoodModel lm spacing) ∧
    (sceneAfter lm rand spacing n).pointLightPositions
      = ((List.range n).filter (fun i => i % 3 = 0)).map (lampPos lm spacing) := by
  induction n with
  | zero => simp [sceneAfter, Scene.empty]
  | succ n ih =>
    obtain ⟨hp, hl, hh, hpl⟩ := ih (by omega)
    have hcap := sceneAfter_below_cap lm rand spacing n (by omega)
    obtain ⟨-, fp, fl, fh, fpl⟩ :=
      placeBuilding_fields lm rand spacing n (sceneAfter lm rand spacing n)
    rw [sceneAfter, fp, fl, fh, fpl, List.range_succ, List.filter_append]
    by_cases h3 : n % 3 = 0
    · have hc : n % 3 = 0 ∧
          (sceneAfter lm rand spacing n).pointLightPositions.length < MAX_POINT_LIGHTS :=
        ⟨h3, hcap⟩
      simp only [if_pos hc]
      rw [hp, hl, hh, hpl]
      simp [h3]
    · have hc : ¬ (n % 3 = 0 ∧
          (sceneAfter lm rand spacing n).pointLightPositions.length < MAX_POINT_LIGHTS) :=
        fun h => h3 h.1
      simp only [if_neg hc]
      rw [hp, hl, hh, hpl]
      simp [h3]

/-- The building vector after `n` iterations: building `i` carries the model
computed for index `i` from some pair of draws. -/
theorem sceneAfter_buildings (lm : Libm α) (rand : ℕ → ℕ) (spacing n i : ℕ) (hi : i < n) :
    ∃ r1 r2 : ℕ, (sceneAfter lm rand spacing n).buildingModels[i]?
      = some (buildingModel lm spacing i (buildingHeight r1) (buildingWidth r2)) := by
  induction n with
  | zero => omega
  | succ n ih =>
    have hlen : ∀ m, (sceneAfter lm rand spacing m).buildingModels.length = m := by
      intro m
      induction m with
      | zero => rfl
      | succ m ihm =>
        rw [sceneAfter, (placeBuilding_fields lm rand spacing m _).1, List.length_append, ihm]
        rfl
    rw [sceneAfter, (placeBuilding_fields lm rand spacing n _).1]
    rcases Nat.lt_succ_iff_lt_or_eq.mp hi with hlt | heq
    · obtain ⟨r1, r2, hr⟩ := ih hlt
      refine ⟨r1, r2, ?_⟩
      rw [List.getElem?_append_left (by rw [hlen]; exact hlt), hr]
    · subst heq
      refine ⟨rand (sceneAfter lm rand spacing i).randCalls,
        rand ((sceneAfter lm rand spacing i).randCalls + 1), ?_⟩
      rw [List.getElem?_append_right (by rw [hlen]), hlen]
      simp

/-- C10: in the 20-building scene a streetlight (one post, one lamp, one hood
and one point light) is added for building `i` exactly when `i % 3 = 0`: the
cap of 10 is not reached before any of the 20 iterations, the scene ends with
the 7 streetlights of buildings 0, 3, 6, 9, 12, 15, 18, each streetlight base
is `pos i + n i * side i * 6`, the building's own translation uses the same
`side i`, and `side i` is `+1` for even `i` and `-1` for odd `i`. -/
theorem streetlight_every_third_building (lm : Libm α) (rand : ℕ → ℕ) (i : ℕ) (hi : i < 20) :
    (sceneAfter lm rand 20 i).pointLightPositions.length < MAX_POINT_LIGHTS ∧
    (i % 3 = 0 →
      (sceneAfter lm rand 20 (i + 1)).streetlightPostModels
        = (sceneAfter lm rand 20 i).streetlightPostModels ++ [postModel lm 20 i] ∧
      (sceneAfter lm rand 20 (i + 1)).streetlightLampModels
        = (sceneAfter lm rand 20 i).streetlightLampModels ++ [lampModel lm 20 i] ∧
      (sceneAfter lm rand 20 (i + 1)).streetlightHoodModels
        = (sceneAfter lm rand 20 i).streetlightHoodModels ++ [hoodModel lm 20 i] ∧
      (sceneAfter lm rand 20 (i + 1)).pointLightPositions
        = (sceneAfter lm rand 20 i).pointLightPositions ++ [lampPos lm 20 i]) ∧
    (i % 3 ≠ 0 →
      (sceneAfter lm rand 20 (i + 1)).streetlightPostModels
        = (sceneAfter lm rand 20 i).streetlightPostModels ∧
      (sceneAfter lm rand 20 (i + 1)).streetlightLampModels
        = (sceneAfter lm rand 20 i).streetlightLampModels ∧
      (sceneAfter lm rand 20 (i + 1)).streetlightHoodModels
        = (sceneAfter lm rand 20 i).streetlightHoodModels ∧
      (sceneAfter lm rand 20 (i + 1)).pointLightPositions
        = (sceneAfter lm rand 20 i).pointLightPositions) ∧
    (scene lm rand).streetlightPostModels
      = [0, 3, 6, 9, 12, 15, 18].map (postModel lm 20) ∧
    (scene lm rand).streetlightLampModels
      = [0, 3, 6, 9, 12, 15, 18].map (lampModel lm 20) ∧
    (scene lm rand).streetlightHoodModels
      = [0, 3, 6, 9, 12, 15, 18].map (hoodModel lm 20) ∧
    (scene lm rand).pointLightPositions
      = [0, 3, 6, 9, 12, 15, 18].map (lampPos lm 20) ∧
    streetlightBase lm 20 i
      = buildingPos 20 i + buildingNormal lm 20 i * (side i : α) * (6 : α) ∧
    (∃ r1 r2 : ℕ, (scene lm rand).buildingModels[i]?
      = some (scale
          (rotate lm
            (translate Mat4.identity
              (buildingPos 20 i
                + buildingNormal lm 20 i * (side i : α) * ((5 : α) + buildingWidth r2)
                + (⟨0, buildingHeight r1 / 2, 0⟩ : Vec3 α)))
            (lm.atan2 (buildingTangent lm 20 i).x (buildingTangent lm 20 i).z) ⟨0, 1, 0⟩)
          ⟨buildingWidth r2, buildingHeight r1, buildingWidth r2⟩)) ∧
    (side i : α) = (if i % 2 = 0 then 1 else -1) := by
  obtain ⟨-, fp, fl, fh, fpl⟩ :=
    placeBuilding_fields lm rand 20 i (sceneAfter lm rand 20 i)
  have hcap := sceneAfter_below_cap lm rand 20 i hi
  obtain ⟨sp, sl, sh, spl⟩ := sceneAfter_lights lm rand 20 20 (le_refl 20)
  have hrange : (List.range 20).filter (fun i => i % 3 = 0) = [0, 3, 6, 9, 12, 15, 18] := by
    decide
  rw [hrange] at sp sl sh spl
  refine ⟨hcap, ?_, ?_, sp, sl, sh, spl, ?_, ?_, rfl⟩
  · intro h3
    have hc : i % 3 = 0 ∧
        (sceneAfter lm rand 20 i).pointLightPositions.length < MAX_POINT_LIGHTS := ⟨h3, hcap⟩
    rw [if_pos hc] at fp fl fh fpl
    exact ⟨fp, fl, fh, fpl⟩
  · intro h3
    have hc : ¬ (i % 3 = 0 ∧
        (sceneAfter lm rand 20 i).pointLightPositions.length < MAX_POINT_LIGHTS) :=
      fun h => h3 h.1
    rw [if_neg hc] at fp fl fh fpl
    exact ⟨fp, fl, fh, fpl⟩
  · unfold streetlightBase
    norm_num
  · exact sceneAfter_buildings lm rand 20 20 i hi

/-- C10 at building `i = 3`, over `ℚ`, with the draws `rand k = k` and
constant library functions. -/
theorem streetlight_every_third_building_witness :
    3 < 20 ∧
    (sceneAfter (⟨fun _ => 1, fun _ _ => 0, fun _ => 1, fun _ => 0⟩ : Libm ℚ) (fun k => k) 20
        (3 + 1)).pointLightPositions
      = (sceneAfter (⟨fun _ => 1, fun _ _ => 0, fun _ => 1, fun _ => 0⟩ : Libm ℚ) (fun k => k) 20
          3).pointLightPositions
        ++ [lampPos (⟨fun _ => 1, fun _ _ => 0, fun _ => 1, fun _ => 0⟩ : Libm ℚ) 20 3] ∧
    (scene (⟨fun _ => 1, fun _ _ => 0, fun _ => 1, fun _ => 0⟩ : Libm ℚ)
        (fun k => k)).pointLightPositions
      = [0, 3, 6, 9, 12, 15, 18].map
          (lampPos (⟨fun _ => 1, fun _ _ => 0, fun _ => 1, fun _ => 0⟩ : Libm ℚ) 20) :=
  ⟨by decide,
    ((streetlight_every_third_building
      (⟨fun _ => 1, fun _ _ => 0, fun _ => 1, fun _ => 0⟩ : Libm ℚ) (fun k => k) 3
      (by decide)).2.1 (by decide)).2.2.2,
    (streetlight_every_third_building
      (⟨fun _ => 1, fun _ _ => 0, fun _ => 1, fun _ => 0⟩ : Libm ℚ) (fun k => k) 3
      (by decide)).2.2.2.2.2.2.1⟩

end SceneTheorems

section WindowTheorems

variable {α : Type} [LinearOrderedField α] [FloorRing α]

theorem forStep3_pos {σ : Type} (x limit : α) (body : α → σ → σ) (s : σ) (hlt : x < limit) :
    forStep3 x limit body s = forStep3 (x + 3) limit body (body x s) := by
  rw [forStep3, if_pos hlt]

theorem forStep3_neg {σ : Type} (x limit : α) (body : α → σ → σ) (s : σ) (hge : ¬ x < limit) :
    forStep3 x limit body s = s := by
  rw [forStep3, if_neg hge]

/-- A recording loop started on `acc` appends its record to `acc`. -/
theorem forStep3_record {β : Type} (g : α → β) (x limit : α) :
    ∀ acc : List β, forStep3 x limit (fun v a => a ++ [g v]) acc
      = acc ++ forStep3 x limit (fun v a => a ++ [g v]) [] := by
  refine @forStep3.induct α _ _ Unit
    (fun x limit _ _ => ∀ acc : List β, forStep3 x limit (fun v a => a ++ [g v]) acc
      = acc ++ forStep3 x limit (fun v a => a ++ [g v]) [])
    ?_ ?_ x limit (fun _ u => u) ()
  · intro x limit _ _ hlt ih acc
    rw [forStep3_pos _ _ _ _ hlt, ih, forStep3_pos _ _ _ [] hlt, ih ([] ++ [g x])]
    simp
  · intro x limit _ _ hge acc
    rw [forStep3_neg _ _ _ _ hge, forStep3_neg _ _ _ _ hge]
    simp

theorem loopValues_pos (x limit : α) (hlt : x < limit) :
    loopValues x limit = x :: loopValues (x + 3) limit := by
  unfold loopValues
  rw [forStep3_pos _ _ _ _ hlt, forStep3_record (fun v => v)]
  rfl

theorem loopValues_neg (x limit : α) (hge : ¬ x < limit) : loopValues x limit = [] := by
  unfold loopValues
  rw [forStep3_neg _ _ _ _ hge]

/-- A `forStep3` loop folds its body over the values of its counter. -/
theorem forStep3_eq_foldl {σ : Type} (x limit : α) (body : α → σ → σ) (s : σ) :
    forStep3 x limit body s = (loopValues x limit).foldl (fun r v => body v r) s := by
  induction x, limit, body, s using forStep3.induct with
  | case1 x limit body s hlt ih =>
    rw [forStep3_pos _ _ _ _ hlt, ih, loopValues_pos _ _ hlt]
    rfl
  | case2 x limit body s hge =>
    rw [forStep3_neg _ _ _ _ hge, loopValues_neg _ _ hge]
    rfl

/-- The values of the counter are `x, x + 3, x + 6, ...` below the limit. -/
theorem mem_loopValues (x limit v : α) :
    v ∈ loopValues x limit ↔ ∃ j : ℕ, v = x + 3 * (j : α) ∧ v < limit := by
  refine @forStep3.induct α _ _ Unit
    (fun x limit _ _ => v ∈ loopValues x limit ↔ ∃ j : ℕ, v = x + 3 * (j : α) ∧ v < limit)
    ?_ ?_ x limit (fun _ u => u) ()
  · intro x limit _ _ hlt ih
    rw [loopValues_pos _ _ hlt, List.mem_cons, ih]
    constructor
    · rintro (rfl | ⟨j, hj, hv⟩)
      · exact ⟨0, by simp, hlt⟩
      · exact ⟨j + 1, by rw [hj]; push_cast; ring, hv⟩
    · rintro ⟨j, hj, hv⟩
      cases j with
      | zero => left; simpa using hj
      | succ j => right; exact ⟨j, by rw [hj]; push_cast; ring, hv⟩
  · intro x limit _ _ hge
    rw [loopValues_neg _ _ hge]
    constructor
    · intro h
      cases h
    · rintro ⟨j, hj, hv⟩
      exfalso
      apply hge
      have hjn : (0 : α) ≤ 3 * (j : α) := by positivity
      linarith

theorem foldl_record {β γ : Type} (g : β → γ) (l : List β) :
    ∀ acc : List γ, l.foldl (fun r v => r ++ [g v]) acc = acc ++ l.map g := by
  induction l with
  | nil => intro acc; simp
  | cons b l ih => intro acc; rw [List.foldl_cons, ih]; simp

theorem foldl_flatMap_cells {β γ σ : Type} (F : β → List γ) (f : σ → γ → σ) (l : List β) :
    ∀ s : σ, (l.flatMap F).foldl f s = l.foldl (fun r b => (F b).foldl f r) s := by
  induction l with
  | nil => intro s; rfl
  | cons b l ih => intro s; rw [List.flatMap_cons, List.foldl_append, ih, List.foldl_cons]

theorem foldl_append_flatMap {β γ : Type} (F : β → List γ) (l : List β) :
    ∀ acc : List γ, l.foldl (fun r b => r ++ F b) acc = acc ++ l.flatMap F := by
  induction l with
  | nil => intro acc; simp
  | cons b l ih => intro acc; rw [List.foldl_cons, ih, List.flatMap_cons, List.append_assoc]

/-- The visited cells are the pairs of a row value and a column value. -/
theorem windowCells_eq (h w : α) :
    windowCells h w = (loopValues 2 (h - 2)).flatMap
      (fun y => (loopValues (-w / 2 + 1.5) (w / 2 - 1.5)).map (fun x => (y, x))) := by
  have hrow : ∀ (y : α) (acc : List (α × α)),
      forStep3 (-w / 2 + 1.5) (w / 2 - 1.5) (fun x a => a ++ [(y, x)]) acc
        = acc ++ (loopValues (-w / 2 + 1.5) (w / 2 - 1.5)).map (fun x => (y, x)) := by
    intro y acc
    rw [forStep3_eq_foldl, foldl_record (fun x => (y, x))]
  unfold windowCells
  rw [forStep3_eq_foldl]
  simp only [hrow]
  rw [foldl_append_flatMap, List.nil_append]

theorem mem_windowCells (h w y x : α) :
    (y, x) ∈ windowCells h w ↔
      (∃ j : ℕ, y = 2 + 3 * (j : α) ∧ y < h - 2) ∧
      (∃ k : ℕ, x = -w / 2 + 1.5 + 3 * (k : α) ∧ x < w / 2 - 1.5) := by
  rw [windowCells_eq, List.mem_flatMap, ← mem_loopValues, ← mem_loopValues]
  constructor
  · rintro ⟨y', hy', hmem⟩
    rw [List.mem_map] at hmem
    obtain ⟨x', hx', heq⟩ := hmem
    cases heq
    exact ⟨hy', hx'⟩
  · rintro ⟨hy, hx⟩
    exact ⟨y, hy, List.mem_map.mpr ⟨x, hx, rfl⟩⟩

/-- The window loops fold `windowCell` over the visited cells. -/
theorem windowGrid_eq_foldl (rand : ℕ → ℕ) (model : Mat4 α) (h w : α) (s : Scene α) :
    windowGrid rand model h w s
      = (windowCells h w).foldl (fun r c => windowCell rand model h w c.1 c.2 r) s := by
  rw [windowCells_eq, foldl_flatMap_cells]
  unfold windowGrid
  rw [forStep3_eq_foldl]
  congr 1
  funext r y
  unfold windowRow
  rw [forStep3_eq_foldl, List.foldl_map]

omit [FloorRing α] in
/-- Folding `windowCell` over a list of cells adds one window per cell and
makes one draw per cell. -/
theorem foldl_windowCell_count (rand : ℕ → ℕ) (model : Mat4 α) (h w : α)
    (cells : List (α × α)) :
    ∀ s : Scene α,
      ((cells.foldl (fun r c => windowCell rand model h w c.1 c.2 r) s).litWindowModels.length
        + (cells.foldl (fun r c => windowCell rand model h w c.1 c.2 r) s).darkWindowModels.length
        = s.litWindowModels.length + s.darkWindowModels.length + cells.length) ∧
      (cells.foldl (fun r c => windowCell rand model h w c.1 c.2 r) s).randCalls
        = s.randCalls + cells.length := by
  induction cells with
  | nil => intro s; simp
  | cons c cells ih =>
    intro s
    rw [List.foldl_cons]
    obtain ⟨h1, h2⟩ := ih (windowCell rand model h w c.1 c.2 s)
    rw [h1, h2]
    unfold windowCell
    split <;> simp <;> omega

/-- C11: for every height `h = 10 + 4a` (`a ≤ 9`) and width `w = 4 + b`
(`b ≤ 4`) the window loops visit at least one cell; the cells are the pairs
`y = 2 + 3j < h - 2`, `x = -w/2 + 1.5 + 3k < w/2 - 1.5`; the window of every
cell, of centre `(x/w, (y - h/2)/h)` and half-extents `(0.75/w, 0.75/h)` in the
building's unit cube, stays within `[-0.5, 0.5]` on both axes; and every cell
makes one draw `r` and adds its window to `litWindowModels` when `r % 3 = 0`,
to `darkWindowModels` otherwise, never to both. -/
theorem window_grid_inside_face (rand : ℕ → ℕ) (model : Mat4 α) (s : Scene α)
    (h w : α) (a b : ℕ) (ha : a ≤ 9) (hb : b ≤ 4)
    (hh : h = 10 + 4 * (a : α)) (hw : w = 4 + (b : α)) :
    windowCells h w ≠ [] ∧
    (∀ y x : α, (y, x) ∈ windowCells h w ↔
      (∃ j : ℕ, y = 2 + 3 * (j : α) ∧ y < h - 2) ∧
      (∃ k : ℕ, x = -w / 2 + 1.5 + 3 * (k : α) ∧ x < w / 2 - 1.5)) ∧
    (∀ y x : α, (y, x) ∈ windowCells h w →
      -0.5 ≤ x / w - 0.75 / w ∧ x / w + 0.75 / w ≤ 0.5 ∧
      -0.5 ≤ (y - h / 2) / h - 0.75 / h ∧ (y - h / 2) / h + 0.75 / h ≤ 0.5) ∧
    windowGrid rand model h w s
      = (windowCells h w).foldl (fun r c => windowCell rand model h w c.1 c.2 r) s ∧
    (∀ (y x : α) (r : Scene α),
      (windowCell rand model h w y x r).randCalls = r.randCalls + 1 ∧
      (rand r.randCalls % 3 = 0 →
        (windowCell rand model h w y x r).litWindowModels
          = r.litWindowModels ++
            [scale (translate model ⟨x / w, (y - h / 2) / h, 0.51⟩) ⟨1.5 / w, 1.5 / h, 0.1⟩] ∧
        (windowCell rand model h w y x r).darkWindowModels = r.darkWindowModels) ∧
      (rand r.randCalls % 3 ≠ 0 →
        (windowCell rand model h w y x r).darkWindowModels
          = r.darkWindowModels ++
            [scale (translate model ⟨x / w, (y - h / 2) / h, 0.51⟩) ⟨1.5 / w, 1.5 / h, 0.1⟩] ∧
        (windowCell rand model h w y x r).litWindowModels = r.litWindowModels)) ∧
    (windowGrid rand model h w s).litWindowModels.length
        + (windowGrid rand model h w s).darkWindowModels.length
      = s.litWindowModels.length + s.darkWindowModels.length + (windowCells h w).length ∧
    s.litWindowModels.length + s.darkWindowModels.length
      < (windowGrid rand model h w s).litWindowModels.length
        + (windowGrid rand model h w s).darkWindowModels.length := by
  have ha' : (a : α) ≤ 9 := by exact_mod_cast ha
  have hb' : (b : α) ≤ 4 := by exact_mod_cast hb
  have ha0 : (0 : α) ≤ (a : α) := Nat.cast_nonneg _
  have hb0 : (0 : α) ≤ (b : α) := Nat.cast_nonneg _
  have hh0 : (0 : α) < h := by rw [hh]; linarith
  have hw0 : (0 : α) < w := by rw [hw]; linarith
  have hfirst : ((2 : α), -w / 2 + 1.5) ∈ windowCells h w := by
    rw [mem_windowCells]
    refine ⟨⟨0, by simp, ?_⟩, ⟨0, by simp, ?_⟩⟩
    · rw [hh]; linarith
    · rw [hw]; norm_num; linarith
  have hne : windowCells h w ≠ [] := List.ne_nil_of_mem hfirst
  have hlen : 0 < (windowCells h w).length := List.length_pos.mpr hne
  have hcount := (foldl_windowCell_count rand model h w (windowCells h w) s).1
  rw [← windowGrid_eq_foldl] at hcount
  refine ⟨hne, fun y x => mem_windowCells h w y x, ?_, windowGrid_eq_foldl rand model h w s,
    ?_, hcount, by omega⟩
  · intro y x hmem
    rw [mem_windowCells] at hmem
    obtain ⟨⟨j, hj, hy⟩, ⟨k, hk, hx⟩⟩ := hmem
    have hj0 : (0 : α) ≤ 3 * (j : α) := by positivity
    have hk0 : (0 : α) ≤ 3 * (k : α) := by positivity
    rw [← sub_div, ← add_div, ← sub_div, ← add_div, le_div_iff₀ hw0, div_le_iff₀ hw0,
      le_div_iff₀ hh0, div_le_iff₀ hh0]
    norm_num at hk hx ⊢
    refine ⟨by linarith, by linarith, by linarith, by linarith⟩
  · intro y x r
    unfold windowCell windowModel
    refine ⟨?_, ?_, ?_⟩
    · split <;> rfl
    · intro h0
      rw [if_pos h0]
      exact ⟨rfl, rfl⟩
    · intro h0
      rw [if_neg h0]
      exact ⟨rfl, rfl⟩

/-- C11 for the smallest building, `h = 10` and `w = 4`, over `ℚ`: its grid
has the two cells `(2, -1/2)` and `(5, -1/2)`. -/
theorem window_grid_inside_face_witness :
    0 ≤ 9 ∧ 0 ≤ 4 ∧ (10 : ℚ) = 10 + 4 * ((0 : ℕ) : ℚ) ∧ (4 : ℚ) = 4 + ((0 : ℕ) : ℚ) ∧
    windowCells (10 : ℚ) 4 ≠ [] ∧
    (Scene.empty : Scene ℚ).litWindowModels.length
        + (Scene.empty : Scene ℚ).darkWindowModels.length
      < (windowGrid (fun k => k) Mat4.identity (10 : ℚ) 4 Scene.empty).litWindowModels.length
        + (windowGrid (fun k => k) Mat4.identity (10 : ℚ) 4
            Scene.empty).darkWindowModels.length :=
  ⟨by decide, by decide, by norm_num, by norm_num,
    (window_grid_inside_face (fun k => k) Mat4.identity Scene.empty (10 : ℚ) 4 0 0
      (by decide) (by decide) (by norm_num) (by norm_num)).1,
    (window_grid_inside_face (fun k => k) Mat4.identity Scene.empty (10 : ℚ) 4 0 0
      (by decide) (by decide) (by norm_num) (by norm_num)).2.2.2.2.2.2⟩

end WindowTheorems

end CarDollyZoom
